import Mathlib

/-!
Verification development for the `oncall` repository.

The repository supplies a single auto-generated schema-change descriptor
(`src/engine/apps/user_management/migrations/0018_auto_20231115_1206.py`).
Its content is embedded below as `migration_0018`.  The surrounding
schema-migration application engine (dependency graph builder, planner,
applier, state store) described by the specification is not part of the
supplied sources, so it is modelled here from the spec and the claims are
settled against that model.
-/

set_option autoImplicit false

namespace Oncall

/-- A value stored in a column; `null` models SQL NULL / Python `None`. -/
inductive Value where
  | null
  | text (s : String)
  | number (n : Int)
deriving DecidableEq, Repr

/-- Modelled from the spec: the type-agnostic field specification carried by
an operation — name aside: nullable flag, default value, structured-data
(JSON) flag.  `default := some v` means a default value `v` was declared
(Django `default=None` declares the default value `None`, i.e. `some .null`);
`default := none` means no default was declared. -/
structure FieldSpec where
  structured : Bool
  null : Bool
  default : Option Value
deriving DecidableEq, Repr

/-- Descriptor identity: (namespace, name). -/
abbrev Ident := String × String

/-- Modelled from the spec: the tagged-variant `Operation` type
({AddField, RemoveField, RenameField, AlterFieldType, ...}), each variant
carrying the target entity name and a field specification. -/
inductive Operation where
  | addField (modelName : String) (fieldName : String) (field : FieldSpec)
  | removeField (modelName : String) (fieldName : String)
  | renameField (modelName : String) (oldName : String) (newName : String)
  | alterFieldType (modelName : String) (fieldName : String) (field : FieldSpec)
deriving DecidableEq, Repr

/-- Whether an operation is an AddField. -/
def Operation.isAddField : Operation → Bool
  | .addField _ _ _ => true
  | _ => false

/-- A schema-change descriptor: identity, dependencies, ordered operations.
Mirrors the `Migration` class shape of the source file. -/
structure Descriptor where
  ns : String
  name : String
  dependencies : List Ident
  operations : List Operation
deriving DecidableEq, Repr

/-- The identity of a descriptor. -/
def Descriptor.id (d : Descriptor) : Ident := (d.ns, d.name)

/-- The field specification written `models.JSONField(default=None, null=True)`
in the source file: structured-data (JSON), nullable, declared default null. -/
def jsonFieldDefaultNoneNullTrue : FieldSpec :=
  { structured := true, null := true, default := some Value.null }

/-- First operation of the source migration: add `alert_group_table_columns`
to entity `organization`. -/
def addOrganizationColumns : Operation :=
  .addField "organization" "alert_group_table_columns" jsonFieldDefaultNoneNullTrue

/-- Second operation of the source migration: add
`alert_group_table_selected_columns` to entity `user`. -/
def addUserSelectedColumns : Operation :=
  .addField "user" "alert_group_table_selected_columns" jsonFieldDefaultNoneNullTrue

/-- Embedded from `src/engine/apps/user_management/migrations/0018_auto_20231115_1206.py`:
the `Migration` class with its `dependencies` and `operations` lists. -/
def migration_0018 : Descriptor :=
  { ns := "user_management"
    name := "0018_auto_20231115_1206"
    dependencies := [("user_management", "0017_alter_organization_maintenance_author")]
    operations := [addOrganizationColumns, addUserSelectedColumns] }

/-- Modelled from the spec: descriptor `0017_alter_organization_maintenance_author`
is referenced as a dependency of the sample descriptor but its file is not among
the supplied sources; only its identity matters here, so its dependency and
operation lists are left empty. -/
def migration_0017 : Descriptor :=
  { ns := "user_management"
    name := "0017_alter_organization_maintenance_author"
    dependencies := []
    operations := [] }

/-! ## Schema model -/

/-- A stored row: an association of column names to values. -/
abbrev Row := List (String × Value)

/-- An entity (record type / table): its fields and its rows. -/
structure Entity where
  fields : List (String × FieldSpec)
  rows : List Row
deriving DecidableEq, Repr

/-- A live schema: named entities. -/
abbrev Schema := List (String × Entity)

/-- Errors raised by a single operation against the live schema. -/
inductive OpError where
  | missingEntity (name : String)
  | duplicateField (entity : String) (fieldName : String)
  | missingField (entity : String) (fieldName : String)
deriving DecidableEq, Repr

/-- Modelled from the spec: the value backfilled into existing rows when a
field is added — null takes precedence over the declared default for existing
rows ("adding a field with a declared default but marked nullable must
backfill existing rows with null, never the default"). -/
def FieldSpec.backfillValue (sp : FieldSpec) : Value :=
  if sp.null then Value.null else sp.default.getD Value.null

/-- The value a freshly inserted row receives for a field it does not supply:
the declared default (null when none is declared and the field is nullable). -/
def FieldSpec.insertDefault (sp : FieldSpec) : Value :=
  sp.default.getD Value.null

/-- Whether an entity already has a field of the given name. -/
def Entity.hasField (e : Entity) (f : String) : Bool :=
  e.fields.any (fun p => decide (p.1 = f))

/-- Modelled from the spec: AddField against one entity — fails on a duplicate
field name, otherwise appends the field and backfills every existing row. -/
def addFieldToEntity (ename : String) (f : String) (sp : FieldSpec) (e : Entity) :
    Except OpError Entity :=
  if e.hasField f then .error (.duplicateField ename f)
  else .ok { fields := e.fields ++ [(f, sp)]
             rows := e.rows.map (fun r => r ++ [(f, sp.backfillValue)]) }

/-- Modelled from the spec: RemoveField against one entity. -/
def removeFieldFromEntity (ename : String) (f : String) (e : Entity) :
    Except OpError Entity :=
  if e.hasField f then
    .ok { fields := e.fields.filter (fun p => decide (p.1 ≠ f))
          rows := e.rows.map (fun r => r.filter (fun p => decide (p.1 ≠ f))) }
  else .error (.missingField ename f)

/-- Modelled from the spec: RenameField against one entity. -/
def renameFieldInEntity (ename : String) (oldName newName : String) (e : Entity) :
    Except OpError Entity :=
  if e.hasField oldName then
    .ok { fields := e.fields.map (fun p => if p.1 = oldName then (newName, p.2) else p)
          rows := e.rows.map (fun r => r.map (fun p => if p.1 = oldName then (newName, p.2) else p)) }
  else .error (.missingField ename oldName)

/-- Modelled from the spec: AlterFieldType against one entity. -/
def alterFieldTypeInEntity (ename : String) (f : String) (sp : FieldSpec) (e : Entity) :
    Except OpError Entity :=
  if e.hasField f then
    .ok { e with fields := e.fields.map (fun p => if p.1 = f then (f, sp) else p) }
  else .error (.missingField ename f)

/-- Apply an entity-level edit to the named entity of a schema; fails when the
entity is absent. -/
def modifyEntity (f : Entity → Except OpError Entity) (ename : String) :
    Schema → Except OpError Schema
  | [] => .error (.missingEntity ename)
  | (n, e) :: rest =>
    if n = ename then
      match f e with
      | .error er => .error er
      | .ok e2 => .ok ((n, e2) :: rest)
    else
      match modifyEntity f ename rest with
      | .error er => .error er
      | .ok rest2 => .ok ((n, e) :: rest2)

/-- Modelled from the spec: dispatch one operation against the live schema. -/
def applyOp (s : Schema) : Operation → Except OpError Schema
  | .addField m f sp => modifyEntity (addFieldToEntity m f sp) m s
  | .removeField m f => modifyEntity (removeFieldFromEntity m f) m s
  | .alterFieldType m f sp => modifyEntity (alterFieldTypeInEntity m f sp) m s
  | .renameField m o n => modifyEntity (renameFieldInEntity m o n) m s

/-- Execute an operation list in order; the first failure aborts. -/
def applyOps (s : Schema) : List Operation → Except OpError Schema
  | [] => .ok s
  | op :: rest =>
    match applyOp s op with
    | .error e => .error e
    | .ok s2 => applyOps s2 rest

/-- Look up an entity by name. -/
def lookupEntity (s : Schema) (n : String) : Option Entity :=
  (s.find? (fun p => decide (p.1 = n))).map (fun p => p.2)

/-- Whether the schema has an entity of the given name. -/
def hasEntity (s : Schema) (n : String) : Bool :=
  (lookupEntity s n).isSome

/-- Read back the specification of a field of an entity. -/
def lookupField (s : Schema) (n f : String) : Option FieldSpec :=
  match lookupEntity s n with
  | none => none
  | some e => (e.fields.find? (fun p => decide (p.1 = f))).map (fun p => p.2)

/-- Modelled from the spec: insert a new row; fields not supplied receive
their declared default (null when none is declared). -/
def insertRow (e : Entity) (vals : List (String × Value)) : Entity :=
  { e with rows := e.rows ++
      [e.fields.map (fun p =>
        (p.1, match vals.find? (fun q => decide (q.1 = p.1)) with
              | some q => q.2
              | none => p.2.insertDefault))] }

/-! ## Checksums, state store -/

/-- Render a value for checksumming. -/
def Value.render : Value → String
  | .null => "null"
  | .text s => "t:" ++ s
  | .number n => "n:" ++ toString n

/-- Render a field specification for checksumming. -/
def FieldSpec.render (sp : FieldSpec) : String :=
  (if sp.structured then "json" else "plain") ++ ","
    ++ (if sp.null then "null" else "notnull") ++ ","
    ++ (match sp.default with
        | none => "nodefault"
        | some v => v.render)

/-- Render an operation for checksumming. -/
def Operation.render : Operation → String
  | .addField m f sp => "add:" ++ m ++ ":" ++ f ++ ":" ++ sp.render
  | .removeField m f => "remove:" ++ m ++ ":" ++ f
  | .renameField m o n => "rename:" ++ m ++ ":" ++ o ++ ":" ++ n
  | .alterFieldType m f sp => "alter:" ++ m ++ ":" ++ f ++ ":" ++ sp.render

/-- Modelled from the spec: the checksum freezing a descriptor's content. -/
def Descriptor.checksum (d : Descriptor) : String :=
  d.ns ++ "/" ++ d.name ++ "|"
    ++ String.intercalate ";" (d.dependencies.map (fun i => i.1 ++ "." ++ i.2)) ++ "|"
    ++ String.intercalate ";" (d.operations.map Operation.render)

/-- One ledger entry: {namespace, name, checksum, applied_at}. -/
structure ApplicationRecord where
  ns : String
  name : String
  checksum : String
  appliedAt : Nat
deriving DecidableEq, Repr

/-- The identity recorded by a ledger entry. -/
def ApplicationRecord.id (r : ApplicationRecord) : Ident := (r.ns, r.name)

/-- Modelled from the spec: the durable ledger of applied descriptors. -/
structure StateStore where
  records : List ApplicationRecord
deriving DecidableEq, Repr

/-- Find the ledger entry for an identity, if any. -/
def StateStore.lookup (st : StateStore) (i : Ident) : Option ApplicationRecord :=
  st.records.find? (fun r => decide (r.id = i))

/-- `has_applied(id)` of the spec. -/
def StateStore.hasApplied (st : StateStore) (i : Ident) : Bool :=
  (st.lookup i).isSome

/-- `applied_set()` of the spec. -/
def StateStore.appliedSet (st : StateStore) : List Ident :=
  st.records.map ApplicationRecord.id

/-- The engine's error taxonomy, from the spec. -/
inductive EngineError where
  | cycleError (stuck : List Ident)
  | missingDependencyError (dep : Ident)
  | unresolvableOrderError (stuck : List Ident)
  | driftError (i : Ident)
  | operationError (i : Ident) (cause : OpError)
deriving DecidableEq, Repr

/-- Modelled from the spec: `record(id, checksum, timestamp)` — idempotent on
the same id+checksum, `DriftError` on a differing checksum for an applied id. -/
def StateStore.record (st : StateStore) (i : Ident) (c : String) (t : Nat) :
    Except EngineError StateStore :=
  match st.lookup i with
  | none => .ok ⟨st.records ++ [⟨i.1, i.2, c, t⟩]⟩
  | some r => if r.checksum = c then .ok st else .error (.driftError i)

/-! ## Dependency graph builder and planner -/

/-- The identities of a descriptor list. -/
def descriptorIds (ds : List Descriptor) : List Ident := ds.map Descriptor.id

/-- Boolean membership test on identity lists. -/
def hasIdent (l : List Ident) (x : Ident) : Bool :=
  l.any (fun y => decide (y = x))

/-- Modelled from the spec: the first declared dependency that is absent from
the given identity set, scanning descriptors in order. -/
def firstMissing (ids : List Ident) : List Descriptor → Option Ident
  | [] => none
  | d :: rest =>
    match d.dependencies.find? (fun dep => !hasIdent ids dep) with
    | some dep => some dep
    | none => firstMissing ids rest

/-- A descriptor is ready when each dependency is already applied or already
emitted into the order being built. -/
def readyDescriptor (applied emitted : List Ident) (d : Descriptor) : Bool :=
  d.dependencies.all (fun dep => hasIdent applied dep || hasIdent emitted dep)

/-- Remove the first ready descriptor from the list, keeping the order of the
others (the list is kept name-sorted by the callers for determinism). -/
def extractReady (applied emitted : List Ident) :
    List Descriptor → Option (Descriptor × List Descriptor)
  | [] => none
  | d :: rest =>
    if readyDescriptor applied emitted d then some (d, rest)
    else
      match extractReady applied emitted rest with
      | some (e, rest2) => some (e, d :: rest2)
      | none => none

/-- Modelled from the spec: Kahn-style peeling — repeatedly emit a descriptor
all of whose dependencies are applied or already emitted; when no descriptor
is ready while some remain, the remainder (which contains every cycle) is
returned as the error. -/
def topoLoop (applied : List Ident) :
    Nat → List Descriptor → List Descriptor → Except (List Ident) (List Descriptor)
  | _, [], acc => .ok acc.reverse
  | 0, d :: rest, _ => .error (descriptorIds (d :: rest))
  | fuel+1, d :: rest, acc =>
    match extractReady applied (descriptorIds acc) (d :: rest) with
    | none => .error (descriptorIds (d :: rest))
    | some (d2, rest2) => topoLoop applied fuel rest2 (d2 :: acc)

/-- Modelled from the spec: the Dependency Graph Builder — fails with
`MissingDependencyError` naming an absent identity, or with `CycleError`
naming the stuck remainder, before anything is applied. -/
def buildGraph (ds : List Descriptor) : Except EngineError (List Descriptor) :=
  match firstMissing (descriptorIds ds) ds with
  | some dep => .error (.missingDependencyError dep)
  | none =>
    match topoLoop [] ds.length ds [] with
    | .error stuck => .error (.cycleError stuck)
    | .ok _ => .ok ds

/-- Modelled from the spec: the Planner — topologically orders the
not-yet-applied descriptors into a Plan. -/
def planDescriptors (ds : List Descriptor) (applied : List Ident) :
    Except EngineError (List Descriptor) :=
  let candidates := ds.filter (fun d => !hasIdent applied d.id)
  match topoLoop applied candidates.length candidates [] with
  | .error stuck => .error (.unresolvableOrderError stuck)
  | .ok p => .ok p

/-! ## Applier and run -/

/-- The schema together with the ledger. -/
structure EngineState where
  schema : Schema
  store : StateStore
deriving DecidableEq, Repr

/-- Modelled from the spec: apply one descriptor inside a transactional
boundary — on any operation failure the whole descriptor's changes are rolled
back (the caller keeps its previous state); on success the schema change and
the ledger write commit together. -/
def applyDescriptor (st : EngineState) (d : Descriptor) (t : Nat) :
    Except EngineError EngineState :=
  match applyOps st.schema d.operations with
  | .error e => .error (.operationError d.id e)
  | .ok s2 =>
    match st.store.record d.id d.checksum t with
    | .error e => .error e
    | .ok store2 => .ok ⟨s2, store2⟩

/-- Modelled from the spec: the Applier — executes the Plan in order, halting
at the first failing descriptor and reporting it; earlier descriptors remain
applied and recorded. -/
def applyPlan (st : EngineState) (t : Nat) :
    List Descriptor → EngineState × Option EngineError
  | [] => (st, none)
  | d :: rest =>
    match applyDescriptor st d t with
    | .error e => (st, some e)
    | .ok st2 => applyPlan st2 t rest

/-- Modelled from the spec: drift detection — the first loaded descriptor
whose stored checksum no longer matches its current content. -/
def checkDrift (ds : List Descriptor) (store : StateStore) : Option Ident :=
  (ds.find? (fun d =>
    match store.lookup d.id with
    | some r => decide (r.checksum ≠ d.checksum)
    | none => false)).map Descriptor.id

/-- Modelled from the spec: one engine run — drift check, graph build,
planning, then application; pre-execution errors leave the state untouched. -/
def run (ds : List Descriptor) (st : EngineState) (t : Nat) :
    EngineState × Option EngineError :=
  match checkDrift ds st.store with
  | some i => (st, some (.driftError i))
  | none =>
    match buildGraph ds with
    | .error e => (st, some e)
    | .ok _ =>
      match planDescriptors ds st.store.appliedSet with
      | .error e => (st, some e)
      | .ok p => applyPlan st t p

/-! ## Dependency edges and cycles -/

/-- `depEdge ds a b`: the descriptor named `a` declares a dependency on `b`. -/
def depEdge (ds : List Descriptor) (a b : Ident) : Prop :=
  ∃ d ∈ ds, d.id = a ∧ b ∈ d.dependencies

/-- A dependency cycle: consecutive elements are joined by dependency edges
and the last element depends back on the first. -/
def isCycle (ds : List Descriptor) : List Ident → Prop
  | [] => False
  | x :: rest =>
    List.Chain (depEdge ds) x rest ∧
      depEdge ds ((x :: rest).getLast (List.cons_ne_nil x rest)) x

/-- The acc list built by `topoLoop`, newest first: each element's
dependencies are applied or appear further down (= earlier emitted). -/
def WellOrdered (applied : List Ident) : List Descriptor → Prop
  | [] => True
  | d :: rest =>
    (∀ dep ∈ d.dependencies, hasIdent applied dep = true ∨ dep ∈ descriptorIds rest) ∧
      WellOrdered applied rest

/-- A plan respects the dependency edges: wherever a descriptor sits in the
plan, each of its dependencies is already applied or occurs earlier. -/
def planRespects (applied : List Ident) (p : List Descriptor) : Prop :=
  ∀ l1 d l2, p = l1 ++ d :: l2 →
    ∀ dep ∈ d.dependencies, hasIdent applied dep = true ∨ dep ∈ descriptorIds l1

/-! ## Basic helper lemmas -/

theorem hasIdent_iff {l : List Ident} {x : Ident} : hasIdent l x = true ↔ x ∈ l := by
  simp [hasIdent, List.any_eq_true]

theorem hasIdent_false_iff {l : List Ident} {x : Ident} : hasIdent l x = false ↔ x ∉ l := by
  rw [← Bool.not_eq_true, not_iff_not]
  exact hasIdent_iff

theorem find?_append_some {α : Type} {l1 l2 : List α} {p : α → Bool} {a : α}
    (h : l1.find? p = some a) : (l1 ++ l2).find? p = some a := by
  rw [List.find?_append, h]
  rfl

theorem find?_append_none {α : Type} {l1 l2 : List α} {p : α → Bool}
    (h : l1.find? p = none) : (l1 ++ l2).find? p = l2.find? p := by
  rw [List.find?_append, h]
  rfl

/-! ## Entity-level lemmas -/

theorem addFieldToEntity_ok {ename f : String} {sp : FieldSpec} {e e2 : Entity}
    (h : addFieldToEntity ename f sp e = .ok e2) :
    e.hasField f = false ∧
      e2.fields = e.fields ++ [(f, sp)] ∧
      e2.rows = e.rows.map (fun r => r ++ [(f, sp.backfillValue)]) := by
  by_cases hf : e.hasField f
  · simp [addFieldToEntity, hf] at h
  · simp only [addFieldToEntity, hf, Bool.false_eq_true, if_false, Except.ok.injEq] at h
    subst h
    exact ⟨Bool.eq_false_iff.mpr hf, rfl, rfl⟩

theorem hasField_false_find? {e : Entity} {f : String} (h : e.hasField f = false) :
    e.fields.find? (fun p => decide (p.1 = f)) = none := by
  rw [List.find?_eq_none]
  intro x hx
  have := (List.any_eq_false.mp h) x hx
  simpa using this

theorem lookupEntity_nil {n : String} : lookupEntity [] n = none := rfl

theorem lookupEntity_cons_self {n : String} {e : Entity} {rest : Schema} :
    lookupEntity ((n, e) :: rest) n = some e := by
  simp [lookupEntity]

theorem lookupEntity_cons_ne {nm n : String} {e : Entity} {rest : Schema} (h : nm ≠ n) :
    lookupEntity ((nm, e) :: rest) n = lookupEntity rest n := by
  simp [lookupEntity, List.find?_cons_of_neg, h]

theorem modifyEntity_nil {f : Entity → Except OpError Entity} {n : String} :
    modifyEntity f n [] = .error (.missingEntity n) := rfl

theorem modifyEntity_cons_self {f : Entity → Except OpError Entity} {n : String} {e : Entity}
    {rest : Schema} :
    modifyEntity f n ((n, e) :: rest) =
      match f e with
      | .error er => .error er
      | .ok e2 => .ok ((n, e2) :: rest) := by
  rw [modifyEntity, if_pos rfl]

theorem modifyEntity_cons_ne {f : Entity → Except OpError Entity} {nm n : String} {e : Entity}
    {rest : Schema} (h : nm ≠ n) :
    modifyEntity f n ((nm, e) :: rest) =
      match modifyEntity f n rest with
      | .error er => .error er
      | .ok rest2 => .ok ((nm, e) :: rest2) := by
  rw [modifyEntity, if_neg h]

theorem modifyEntity_ok_inv {f : Entity → Except OpError Entity} {n : String} :
    ∀ {s s2 : Schema}, modifyEntity f n s = .ok s2 →
      ∃ e e2, lookupEntity s n = some e ∧ f e = .ok e2 ∧
        lookupEntity s2 n = some e2 ∧
        ∀ m, m ≠ n → lookupEntity s2 m = lookupEntity s m := by
  intro s
  induction s with
  | nil => intro s2 h; simp [modifyEntity_nil] at h
  | cons hd rest ih =>
    intro s2 h
    obtain ⟨nm, e0⟩ := hd
    by_cases hn : nm = n
    · subst hn
      rw [modifyEntity_cons_self] at h
      cases hfe : f e0 with
      | error er => rw [hfe] at h; exact absurd h (by simp)
      | ok e2 =>
        rw [hfe] at h
        simp only [Except.ok.injEq] at h
        subst h
        refine ⟨e0, e2, lookupEntity_cons_self, hfe, lookupEntity_cons_self, ?_⟩
        intro m hm
        rw [lookupEntity_cons_ne (Ne.symm hm), lookupEntity_cons_ne (Ne.symm hm)]
    · rw [modifyEntity_cons_ne hn] at h
      cases hrec : modifyEntity f n rest with
      | error er => rw [hrec] at h; exact absurd h (by simp)
      | ok rest2 =>
        rw [hrec] at h
        simp only [Except.ok.injEq] at h
        subst h
        obtain ⟨e, e2, h1, h2, h3, h4⟩ := ih hrec
        refine ⟨e, e2, ?_, h2, ?_, ?_⟩
        · rw [lookupEntity_cons_ne hn]; exact h1
        · rw [lookupEntity_cons_ne hn]; exact h3
        · intro m hm
          by_cases hmn : nm = m
          · subst hmn
            rw [lookupEntity_cons_self, lookupEntity_cons_self]
          · rw [lookupEntity_cons_ne hmn, lookupEntity_cons_ne hmn]
            exact h4 m hm

theorem modifyEntity_ok_of {f : Entity → Except OpError Entity} {n : String} :
    ∀ {s : Schema} {e e2 : Entity}, lookupEntity s n = some e → f e = .ok e2 →
      ∃ s2, modifyEntity f n s = .ok s2 := by
  intro s
  induction s with
  | nil => intro e e2 h; simp [lookupEntity] at h
  | cons hd rest ih =>
    intro e e2 h hfe
    obtain ⟨nm, e0⟩ := hd
    by_cases hn : nm = n
    · subst hn
      rw [lookupEntity_cons_self] at h
      cases h
      exact ⟨(nm, e2) :: rest, by rw [modifyEntity_cons_self, hfe]⟩
    · rw [lookupEntity_cons_ne hn] at h
      obtain ⟨s2, hrec⟩ := ih h hfe
      exact ⟨(nm, e0) :: s2, by rw [modifyEntity_cons_ne hn, hrec]⟩

theorem lookupField_of_entity {s : Schema} {n : String} {e : Entity}
    (h : lookupEntity s n = some e) (f : String) :
    lookupField s n f = (e.fields.find? (fun p => decide (p.1 = f))).map (fun p => p.2) := by
  simp [lookupField, h]

theorem find?_field_append_self {fs : List (String × FieldSpec)} {f : String} {sp : FieldSpec}
    (h : fs.find? (fun p => decide (p.1 = f)) = none) :
    (fs ++ [(f, sp)]).find? (fun p => decide (p.1 = f)) = some (f, sp) := by
  rw [find?_append_none h]
  simp

theorem find?_field_append_other {fs : List (String × FieldSpec)} {f g : String} {sp : FieldSpec}
    (h : f ≠ g) :
    (fs ++ [(f, sp)]).find? (fun p => decide (p.1 = g)) = fs.find? (fun p => decide (p.1 = g)) := by
  cases hf : fs.find? (fun p => decide (p.1 = g)) with
  | some x => exact find?_append_some hf
  | none => rw [find?_append_none hf]; simp [h]

theorem applyOps_nil {s : Schema} : applyOps s [] = .ok s := rfl

theorem applyOps_cons {s : Schema} {op : Operation} {rest : List Operation} :
    applyOps s (op :: rest) =
      match applyOp s op with
      | .error e => .error e
      | .ok s2 => applyOps s2 rest := rfl

/-- Full inversion of a successful AddField: the entity was present, the field
was fresh, the field list gained exactly the new field, every existing row was
backfilled, and every other entity is untouched. -/
theorem applyOp_addField_inv {s s2 : Schema} {m f : String} {sp : FieldSpec}
    (h : applyOp s (.addField m f sp) = .ok s2) :
    ∃ e e2, lookupEntity s m = some e ∧ e.hasField f = false ∧
      lookupEntity s2 m = some e2 ∧
      e2.fields = e.fields ++ [(f, sp)] ∧
      e2.rows = e.rows.map (fun r => r ++ [(f, sp.backfillValue)]) ∧
      ∀ mm, mm ≠ m → lookupEntity s2 mm = lookupEntity s mm := by
  obtain ⟨e, e2, h1, h2, h3, h4⟩ := modifyEntity_ok_inv (f := addFieldToEntity m f sp) h
  obtain ⟨hfresh, hfields, hrows⟩ := addFieldToEntity_ok h2
  exact ⟨e, e2, h1, hfresh, h3, hfields, hrows, h4⟩

/-- Lookup behaviour of a successful AddField: every pre-existing field reads
back unchanged, any (entity, field) pair other than the target is untouched,
the target reads back as the added specification, and the target was absent
before. -/
theorem applyOp_addField_lookup {s s2 : Schema} {m f : String} {sp : FieldSpec}
    (h : applyOp s (.addField m f sp) = .ok s2) :
    (∀ en g spec, lookupField s en g = some spec → lookupField s2 en g = some spec) ∧
      (∀ en g, ¬(en = m ∧ g = f) → lookupField s2 en g = lookupField s en g) ∧
      lookupField s2 m f = some sp ∧ lookupField s m f = none := by
  obtain ⟨e, e2, h1, hfresh, h3, hfields, _, hother⟩ := applyOp_addField_inv h
  have hnewf : lookupField s2 m f = some sp := by
    rw [lookupField_of_entity h3, hfields,
      find?_field_append_self (hasField_false_find? hfresh)]
    rfl
  have holdf : lookupField s m f = none := by
    rw [lookupField_of_entity h1, hasField_false_find? hfresh]
    rfl
  have hframe : ∀ en g, ¬(en = m ∧ g = f) → lookupField s2 en g = lookupField s en g := by
    intro en g hng
    by_cases hen : en = m
    · subst hen
      have hg : f ≠ g := by
        intro hgf
        exact hng ⟨rfl, hgf.symm⟩
      rw [lookupField_of_entity h3, lookupField_of_entity h1, hfields,
        find?_field_append_other hg]
    · simp only [lookupField, hother en hen]
  refine ⟨?_, hframe, hnewf, holdf⟩
  intro en g spec hs
  by_cases hng : en = m ∧ g = f
  · obtain ⟨he, hg⟩ := hng
    subst he; subst hg
    rw [holdf] at hs
    exact absurd hs (by simp)
  · rw [hframe en g hng]
    exact hs

/-- AddField edits on distinct entities commute (on the success path). -/
theorem modifyEntity_comm {f1 f2 : Entity → Except OpError Entity} {n1 n2 : String}
    (hne : n1 ≠ n2) :
    ∀ {s s1 s2 : Schema}, modifyEntity f1 n1 s = .ok s1 → modifyEntity f2 n2 s1 = .ok s2 →
      ∃ s1', modifyEntity f2 n2 s = .ok s1' ∧ modifyEntity f1 n1 s1' = .ok s2 := by
  intro s
  induction s with
  | nil => intro s1 s2 h1 _; simp [modifyEntity_nil] at h1
  | cons hd rest ih =>
    intro s1 s2 h1 h2
    obtain ⟨nm, e0⟩ := hd
    by_cases hm1 : nm = n1
    · subst hm1
      rw [modifyEntity_cons_self] at h1
      cases hfe : f1 e0 with
      | error er => rw [hfe] at h1; exact absurd h1 (by simp)
      | ok e1 =>
        rw [hfe] at h1
        simp only [Except.ok.injEq] at h1
        subst h1
        rw [modifyEntity_cons_ne hne] at h2
        cases hrec : modifyEntity f2 n2 rest with
        | error er => rw [hrec] at h2; exact absurd h2 (by simp)
        | ok rest2 =>
          rw [hrec] at h2
          simp only [Except.ok.injEq] at h2
          subst h2
          refine ⟨(nm, e0) :: rest2, ?_, ?_⟩
          · rw [modifyEntity_cons_ne hne, hrec]
          · rw [modifyEntity_cons_self, hfe]
    · by_cases hm2 : nm = n2
      · subst hm2
        rw [modifyEntity_cons_ne hm1] at h1
        cases hrec : modifyEntity f1 n1 rest with
        | error er => rw [hrec] at h1; exact absurd h1 (by simp)
        | ok rest1 =>
          rw [hrec] at h1
          simp only [Except.ok.injEq] at h1
          subst h1
          rw [modifyEntity_cons_self] at h2
          cases hfe : f2 e0 with
          | error er => rw [hfe] at h2; exact absurd h2 (by simp)
          | ok e2 =>
            rw [hfe] at h2
            simp only [Except.ok.injEq] at h2
            subst h2
            refine ⟨(nm, e2) :: rest, ?_, ?_⟩
            · rw [modifyEntity_cons_self, hfe]
            · rw [modifyEntity_cons_ne hm1, hrec]
      · rw [modifyEntity_cons_ne hm1] at h1
        cases hrec1 : modifyEntity f1 n1 rest with
        | error er => rw [hrec1] at h1; exact absurd h1 (by simp)
        | ok rest1 =>
          rw [hrec1] at h1
          simp only [Except.ok.injEq] at h1
          subst h1
          rw [modifyEntity_cons_ne hm2] at h2
          cases hrec2 : modifyEntity f2 n2 rest1 with
          | error er => rw [hrec2] at h2; exact absurd h2 (by simp)
          | ok rest2 =>
            rw [hrec2] at h2
            simp only [Except.ok.injEq] at h2
            subst h2
            obtain ⟨rest1', ha, hb⟩ := ih hrec1 hrec2
            refine ⟨(nm, e0) :: rest1', ?_, ?_⟩
            · rw [modifyEntity_cons_ne hm2, ha]
            · rw [modifyEntity_cons_ne hm1, hb]

theorem hasField_eq_false_of_find? {e : Entity} {f : String}
    (h : e.fields.find? (fun p => decide (p.1 = f)) = none) : e.hasField f = false := by
  rw [Entity.hasField, List.any_eq_false]
  intro x hx
  have := List.find?_eq_none.mp h x hx
  simpa using this

theorem addFieldToEntity_ok_of_fresh {ename f : String} {sp : FieldSpec} {e : Entity}
    (h : e.hasField f = false) :
    addFieldToEntity ename f sp e =
      .ok { fields := e.fields ++ [(f, sp)]
            rows := e.rows.map (fun r => r ++ [(f, sp.backfillValue)]) } := by
  simp [addFieldToEntity, h]

theorem applyOps_cons_ok {s s1 : Schema} {op : Operation} {rest : List Operation}
    (h : applyOp s op = .ok s1) : applyOps s (op :: rest) = applyOps s1 rest := by
  rw [applyOps_cons, h]

theorem applyOps_cons_inv {s t : Schema} {op : Operation} {rest : List Operation}
    (h : applyOps s (op :: rest) = .ok t) :
    ∃ s1, applyOp s op = .ok s1 ∧ applyOps s1 rest = .ok t := by
  cases hop : applyOp s op with
  | error e => rw [applyOps_cons, hop] at h; exact absurd h (by simp)
  | ok s1 => rw [applyOps_cons, hop] at h; exact ⟨s1, rfl, h⟩

/-! ## Claim C1 -/

/-- Claim C1: the supplied descriptor contains exactly two operations, both
AddField — the first adds `alert_group_table_columns` to entity
`organization`, the second adds `alert_group_table_selected_columns` to
entity `user`; each added field is structured-data (JSON), nullable, with
declared default null; and after applying the descriptor to a schema that has
both entities (and neither column yet) both fields are present with exactly
these attributes. -/
theorem migration_0018_round_trip :
    migration_0018.operations =
      [Operation.addField "organization" "alert_group_table_columns" jsonFieldDefaultNoneNullTrue,
        Operation.addField "user" "alert_group_table_selected_columns" jsonFieldDefaultNoneNullTrue] ∧
    jsonFieldDefaultNoneNullTrue =
      { structured := true, null := true, default := some Value.null } ∧
    ∀ s : Schema, hasEntity s "organization" = true → hasEntity s "user" = true →
      lookupField s "organization" "alert_group_table_columns" = none →
      lookupField s "user" "alert_group_table_selected_columns" = none →
      ∃ s2, applyOps s migration_0018.operations = .ok s2 ∧
        lookupField s2 "organization" "alert_group_table_columns" =
          some jsonFieldDefaultNoneNullTrue ∧
        lookupField s2 "user" "alert_group_table_selected_columns" =
          some jsonFieldDefaultNoneNullTrue := by
  refine ⟨rfl, rfl, ?_⟩
  intro s h1 h2 h3 h4
  obtain ⟨eO, heO⟩ := Option.isSome_iff_exists.mp h1
  have hfreshO : eO.hasField "alert_group_table_columns" = false := by
    apply hasField_eq_false_of_find?
    rw [lookupField_of_entity heO] at h3
    exact Option.map_eq_none'.mp h3
  obtain ⟨s1, hs1⟩ := modifyEntity_ok_of heO
    (@addFieldToEntity_ok_of_fresh "organization" "alert_group_table_columns"
      jsonFieldDefaultNoneNullTrue eO hfreshO)
  have hop1 : applyOp s addOrganizationColumns = .ok s1 := hs1
  have hlk1 := applyOp_addField_lookup hop1
  obtain ⟨_, hframe1, hnew1, _⟩ := hlk1
  have heU2 : lookupEntity s1 "user" = lookupEntity s "user" := by
    obtain ⟨_, _, _, _, _, _, _, hother⟩ := applyOp_addField_inv hop1
    exact hother "user" (by decide)
  obtain ⟨eU, heU⟩ := Option.isSome_iff_exists.mp h2
  have h4' : lookupField s1 "user" "alert_group_table_selected_columns" = none := by
    rw [hframe1 "user" "alert_group_table_selected_columns" (by simp)]
    exact h4
  have hfreshU : eU.hasField "alert_group_table_selected_columns" = false := by
    apply hasField_eq_false_of_find?
    rw [lookupField_of_entity (heU2.trans heU)] at h4'
    exact Option.map_eq_none'.mp h4'
  obtain ⟨s2, hs2⟩ := modifyEntity_ok_of (heU2.trans heU)
    (@addFieldToEntity_ok_of_fresh "user" "alert_group_table_selected_columns"
      jsonFieldDefaultNoneNullTrue eU hfreshU)
  have hop2 : applyOp s1 addUserSelectedColumns = .ok s2 := hs2
  have hlk2 := applyOp_addField_lookup hop2
  obtain ⟨_, hframe2, hnew2, _⟩ := hlk2
  refine ⟨s2, ?_, ?_, hnew2⟩
  · rw [show migration_0018.operations = [addOrganizationColumns, addUserSelectedColumns] from rfl,
      applyOps_cons_ok hop1, applyOps_cons_ok hop2, applyOps_nil]
  · rw [hframe2 "organization" "alert_group_table_columns" (by simp)]
    exact hnew1

/-- Concrete schema used to witness C1. -/
def roundTripSchema : Schema := [("organization", ⟨[], []⟩), ("user", ⟨[], []⟩)]

/-- Witness for C1: the round trip at a concrete two-entity schema. -/
theorem migration_0018_round_trip_witness :
    ∃ s2, applyOps roundTripSchema migration_0018.operations = .ok s2 ∧
      lookupField s2 "organization" "alert_group_table_columns" =
        some jsonFieldDefaultNoneNullTrue ∧
      lookupField s2 "user" "alert_group_table_selected_columns" =
        some jsonFieldDefaultNoneNullTrue :=
  migration_0018_round_trip.2.2 roundTripSchema (by decide) (by decide) (by decide) (by decide)

/-! ## Claim C2 -/

/-- Claim C2: for every AddField whose field specification declares both a
default value and the nullable flag, applying the operation backfills every
existing row with null — never with the declared default — while the declared
default applies to rows inserted afterwards that do not supply the field. -/
theorem addField_backfill_policy (ename f : String) (sp : FieldSpec) (e e2 : Entity)
    (_hdef : sp.default.isSome = true) (hnull : sp.null = true)
    (h : addFieldToEntity ename f sp e = .ok e2) :
    e2.rows = e.rows.map (fun row => row ++ [(f, Value.null)]) ∧
    ∀ vals, vals.find? (fun q => decide (q.1 = f)) = none →
      ∃ row, (insertRow e2 vals).rows = e2.rows ++ [row] ∧ (f, sp.insertDefault) ∈ row := by
  obtain ⟨_, hfields, hrows⟩ := addFieldToEntity_ok h
  have hb : sp.backfillValue = Value.null := by
    simp [FieldSpec.backfillValue, hnull]
  constructor
  · rw [hrows, hb]
  · intro vals hv
    refine ⟨_, rfl, ?_⟩
    have hmem : (f, sp) ∈ e2.fields := by
      rw [hfields]
      exact List.mem_append_right _ (by simp)
    have hmap := List.mem_map_of_mem
      (fun p : String × FieldSpec =>
        (p.1, match vals.find? (fun q => decide (q.1 = p.1)) with
              | some q => q.2
              | none => p.2.insertDefault)) hmem
    simpa [hv] using hmap

/-- Concrete field specification used to witness C2: nullable with a declared
non-null default. -/
def backfillWitnessSpec : FieldSpec := ⟨true, true, some (Value.text "defaultvalue")⟩

/-- Concrete entity used to witness C2: one column, one existing row. -/
def backfillWitnessEntity : Entity := ⟨[("x", ⟨false, false, none⟩)], [[("x", Value.number 1)]]⟩

/-- Result of adding the witness field to the witness entity. -/
def backfillWitnessResult : Entity :=
  ⟨[("x", ⟨false, false, none⟩), ("col", backfillWitnessSpec)],
    [[("x", Value.number 1), ("col", Value.null)]]⟩

/-- Witness for C2: the existing row is backfilled with null even though the
declared default is the text "defaultvalue"; a subsequent insert receives the
declared default. -/
theorem addField_backfill_policy_witness :
    backfillWitnessResult.rows =
      backfillWitnessEntity.rows.map (fun row => row ++ [("col", Value.null)]) ∧
    ∃ row, (insertRow backfillWitnessResult []).rows = backfillWitnessResult.rows ++ [row] ∧
      ("col", backfillWitnessSpec.insertDefault) ∈ row := by
  have h := addField_backfill_policy "ent" "col" backfillWitnessSpec backfillWitnessEntity
    backfillWitnessResult (by rfl) (by rfl) (by rfl)
  exact ⟨h.1, h.2 [] (by rfl)⟩

/-! ## Claim C9 -/

/-- Claim C9: every operation of the supplied descriptor is an AddField — it
removes, renames or alters nothing — so a successful application leaves every
pre-existing field of every entity unchanged and changes no (entity, field)
lookup other than the two added columns. -/
theorem migration_0018_frame_preservation :
    (∀ op ∈ migration_0018.operations, op.isAddField = true) ∧
    ∀ s s2 : Schema, applyOps s migration_0018.operations = .ok s2 →
      (∀ en g spec, lookupField s en g = some spec → lookupField s2 en g = some spec) ∧
      (∀ en g, ¬(en = "organization" ∧ g = "alert_group_table_columns") →
        ¬(en = "user" ∧ g = "alert_group_table_selected_columns") →
        lookupField s2 en g = lookupField s en g) := by
  constructor
  · decide
  · intro s s2 h
    obtain ⟨s1, hop1, hrest⟩ := applyOps_cons_inv h
    obtain ⟨t, hop2, hnil⟩ := applyOps_cons_inv hrest
    have ht : t = s2 := by
      rw [applyOps_nil] at hnil
      exact Except.ok.inj hnil
    subst ht
    obtain ⟨hpres1, hframe1, _, _⟩ :=
      @applyOp_addField_lookup s s1 "organization" "alert_group_table_columns"
        jsonFieldDefaultNoneNullTrue hop1
    obtain ⟨hpres2, hframe2, _, _⟩ :=
      @applyOp_addField_lookup s1 t "user" "alert_group_table_selected_columns"
        jsonFieldDefaultNoneNullTrue hop2
    constructor
    · intro en g spec hs
      exact hpres2 en g spec (hpres1 en g spec hs)
    · intro en g hn1 hn2
      rw [hframe2 en g hn2, hframe1 en g hn1]

/-- Concrete schema with a pre-existing column, used to witness C9. -/
def frameWitnessSchema : Schema :=
  [("organization", ⟨[("pre", ⟨false, false, none⟩)], []⟩), ("user", ⟨[], []⟩)]

/-- The witness schema after applying the descriptor. -/
def frameWitnessSchema2 : Schema :=
  [("organization",
    ⟨[("pre", ⟨false, false, none⟩),
      ("alert_group_table_columns", jsonFieldDefaultNoneNullTrue)], []⟩),
   ("user", ⟨[("alert_group_table_selected_columns", jsonFieldDefaultNoneNullTrue)], []⟩)]

/-- Witness for C9: the pre-existing column of `organization` reads back
unchanged after the descriptor is applied. -/
theorem migration_0018_frame_preservation_witness :
    lookupField frameWitnessSchema2 "organization" "pre" = some ⟨false, false, none⟩ ∧
    Operation.isAddField addOrganizationColumns = true := by
  refine ⟨?_, migration_0018_frame_preservation.1 addOrganizationColumns (by simp [migration_0018])⟩
  exact (migration_0018_frame_preservation.2 frameWitnessSchema frameWitnessSchema2 (by rfl)).1
    "organization" "pre" ⟨false, false, none⟩ (by rfl)

/-! ## Claim C10 -/

/-- Claim C10: the two AddField operations of the descriptor target distinct
entities and distinct field names, and executing them in either order against
any schema yields the same final schema whenever either order succeeds. -/
theorem addField_operations_commute :
    ("organization" : String) ≠ "user" ∧
    ("alert_group_table_columns" : String) ≠ "alert_group_table_selected_columns" ∧
    ∀ s t : Schema,
      applyOps s [addOrganizationColumns, addUserSelectedColumns] = .ok t ↔
      applyOps s [addUserSelectedColumns, addOrganizationColumns] = .ok t := by
  refine ⟨by decide, by decide, ?_⟩
  intro s t
  constructor
  · intro h
    obtain ⟨s1, hop1, hrest⟩ := applyOps_cons_inv h
    obtain ⟨t', hop2, hnil⟩ := applyOps_cons_inv hrest
    have ht : t' = t := by
      rw [applyOps_nil] at hnil
      exact Except.ok.inj hnil
    rw [ht] at hop2
    obtain ⟨s1', ha, hb⟩ := modifyEntity_comm (by decide : ("organization" : String) ≠ "user")
      hop1 hop2
    rw [applyOps_cons_ok (show applyOp s addUserSelectedColumns = .ok s1' from ha),
      applyOps_cons_ok (show applyOp s1' addOrganizationColumns = .ok t from hb), applyOps_nil]
  · intro h
    obtain ⟨s1, hop1, hrest⟩ := applyOps_cons_inv h
    obtain ⟨t', hop2, hnil⟩ := applyOps_cons_inv hrest
    have ht : t' = t := by
      rw [applyOps_nil] at hnil
      exact Except.ok.inj hnil
    rw [ht] at hop2
    obtain ⟨s1', ha, hb⟩ := modifyEntity_comm (by decide : ("user" : String) ≠ "organization")
      hop1 hop2
    rw [applyOps_cons_ok (show applyOp s addOrganizationColumns = .ok s1' from ha),
      applyOps_cons_ok (show applyOp s1' addUserSelectedColumns = .ok t from hb), applyOps_nil]

/-- Concrete schema used to witness C10. -/
def commuteWitnessSchema : Schema := [("organization", ⟨[], []⟩), ("user", ⟨[], []⟩)]

/-- The witness schema after both columns are added, in either order. -/
def commuteWitnessSchema2 : Schema :=
  [("organization", ⟨[("alert_group_table_columns", jsonFieldDefaultNoneNullTrue)], []⟩),
   ("user", ⟨[("alert_group_table_selected_columns", jsonFieldDefaultNoneNullTrue)], []⟩)]

/-- Witness for C10: at a concrete schema the reversed order reaches the very
same final schema as the descriptor's order. -/
theorem addField_operations_commute_witness :
    applyOps commuteWitnessSchema [addUserSelectedColumns, addOrganizationColumns] =
      .ok commuteWitnessSchema2 :=
  (addField_operations_commute.2.2 commuteWitnessSchema commuteWitnessSchema2).mp (by rfl)

/-! ## Planner lemmas -/

theorem topoLoop_nil {applied : List Ident} {fuel : Nat} {acc : List Descriptor} :
    topoLoop applied fuel [] acc = .ok acc.reverse := by
  cases fuel <;> rfl

theorem topoLoop_zero {applied : List Ident} {d : Descriptor} {rest acc : List Descriptor} :
    topoLoop applied 0 (d :: rest) acc = .error (descriptorIds (d :: rest)) := rfl

theorem topoLoop_succ {applied : List Ident} {fuel : Nat} {d : Descriptor}
    {rest acc : List Descriptor} :
    topoLoop applied (fuel + 1) (d :: rest) acc =
      match extractReady applied (descriptorIds acc) (d :: rest) with
      | none => .error (descriptorIds (d :: rest))
      | some (d2, rest2) => topoLoop applied fuel rest2 (d2 :: acc) := rfl

theorem extractReady_some {applied emitted : List Ident} :
    ∀ {l : List Descriptor} {d : Descriptor} {rest : List Descriptor},
      extractReady applied emitted l = some (d, rest) →
      readyDescriptor applied emitted d = true ∧ List.Perm l (d :: rest) := by
  intro l
  induction l with
  | nil => intro d rest h; simp [extractReady] at h
  | cons x xs ih =>
    intro d rest h
    by_cases hr : readyDescriptor applied emitted x = true
    · rw [extractReady, if_pos hr] at h
      simp only [Option.some.injEq, Prod.mk.injEq] at h
      obtain ⟨hd, hrest⟩ := h
      subst hd; subst hrest
      exact ⟨hr, List.Perm.refl _⟩
    · rw [extractReady, if_neg hr] at h
      cases hrec : extractReady applied emitted xs with
      | none => rw [hrec] at h; exact absurd h (by simp)
      | some pr =>
        obtain ⟨e, rest2⟩ := pr
        rw [hrec] at h
        simp only [Option.some.injEq, Prod.mk.injEq] at h
        obtain ⟨hd, hrest⟩ := h
        subst hd; subst hrest
        obtain ⟨hre, hperm⟩ := ih hrec
        exact ⟨hre, (hperm.cons x).trans (List.Perm.swap _ x rest2)⟩

theorem extractReady_none {applied emitted : List Ident} :
    ∀ {l : List Descriptor}, extractReady applied emitted l = none →
      ∀ d ∈ l, readyDescriptor applied emitted d = false := by
  intro l
  induction l with
  | nil => intro _ d hd; cases hd
  | cons x xs ih =>
    intro h d hd
    by_cases hr : readyDescriptor applied emitted x = true
    · rw [extractReady, if_pos hr] at h
      exact absurd h (by simp)
    · rw [extractReady, if_neg hr] at h
      cases hrec : extractReady applied emitted xs with
      | some pr => rw [hrec] at h; exact absurd h (by simp)
      | none =>
        rcases List.mem_cons.mp hd with hdx | hdxs
        · subst hdx
          exact Bool.eq_false_iff.mpr hr
        · exact ih hrec d hdxs

theorem wellOrdered_append_middle {applied : List Ident} :
    ∀ (u : List Descriptor) {v : List Descriptor} {d : Descriptor},
      WellOrdered applied (u ++ d :: v) →
      ∀ dep ∈ d.dependencies, hasIdent applied dep = true ∨ dep ∈ descriptorIds v := by
  intro u
  induction u with
  | nil => intro v d h; exact h.1
  | cons x u ih => intro v d h; exact ih h.2

theorem wellOrdered_respects {applied : List Ident} {acc : List Descriptor}
    (h : WellOrdered applied acc) : planRespects applied acc.reverse := by
  intro l1 d l2 heq dep hdep
  have hacc : acc = l2.reverse ++ d :: l1.reverse := by
    have := congrArg List.reverse heq
    rw [List.reverse_reverse] at this
    rw [this, List.reverse_append, List.reverse_cons, List.append_assoc,
      List.singleton_append]
  rw [hacc] at h
  rcases wellOrdered_append_middle l2.reverse h dep hdep with hl | hr
  · exact Or.inl hl
  · refine Or.inr ?_
    rw [descriptorIds, List.map_reverse, List.mem_reverse] at hr
    exact hr

theorem exists_min_nat {α : Type} (f : α → Nat) :
    ∀ l : List α, l ≠ [] → ∃ a ∈ l, ∀ b ∈ l, f a ≤ f b := by
  intro l
  induction l with
  | nil => intro h; exact absurd rfl h
  | cons x xs ih =>
    intro _
    cases xs with
    | nil => exact ⟨x, by simp, by simp⟩
    | cons y ys =>
      obtain ⟨a, ha, hmin⟩ := ih (by simp)
      by_cases hle : f x ≤ f a
      · refine ⟨x, by simp, ?_⟩
        intro b hb
        rcases List.mem_cons.mp hb with hbx | hbs
        · subst hbx; exact Nat.le_refl _
        · exact Nat.le_trans hle (hmin b hbs)
      · refine ⟨a, List.mem_cons_of_mem x ha, ?_⟩
        intro b hb
        rcases List.mem_cons.mp hb with hbx | hbs
        · subst hbx; exact Nat.le_of_lt (Nat.lt_of_not_le hle)
        · exact hmin b hbs

/-- Soundness and completeness of the peeling loop: under a rank function
consistent with the unapplied dependency edges and closure of dependencies,
the loop succeeds, emits every remaining descriptor, and the emitted order
respects every dependency edge. -/
theorem topoLoop_ok_correct (applied : List Ident) (r : Ident → Nat) :
    ∀ (fuel : Nat) (remaining acc : List Descriptor),
      remaining.length ≤ fuel →
      (∀ d ∈ remaining, ∀ dep ∈ d.dependencies,
        hasIdent applied dep = true ∨ dep ∈ descriptorIds acc ∨ dep ∈ descriptorIds remaining) →
      (∀ d ∈ remaining, ∀ dep ∈ d.dependencies, hasIdent applied dep = false → r dep < r d.id) →
      WellOrdered applied acc →
      ∃ p, topoLoop applied fuel remaining acc = .ok p ∧
        (∀ d ∈ remaining, d ∈ p) ∧ (∀ d ∈ acc, d ∈ p) ∧ planRespects applied p := by
  intro fuel
  induction fuel with
  | zero =>
    intro remaining acc hlen _ _ hwo
    have hrem : remaining = [] := List.length_eq_zero.mp (Nat.le_zero.mp hlen)
    subst hrem
    refine ⟨acc.reverse, topoLoop_nil, ?_, ?_, wellOrdered_respects hwo⟩
    · intro d hd; cases hd
    · intro d hd; exact List.mem_reverse.mpr hd
  | succ fuel ih =>
    intro remaining acc hlen hclosed hrank hwo
    cases remaining with
    | nil =>
      refine ⟨acc.reverse, topoLoop_nil, ?_, ?_, wellOrdered_respects hwo⟩
      · intro d hd; cases hd
      · intro d hd; exact List.mem_reverse.mpr hd
    | cons d0 rest0 =>
      obtain ⟨dmin, hdmin, hmin⟩ :=
        exists_min_nat (fun d => r d.id) (d0 :: rest0) (List.cons_ne_nil d0 rest0)
      have hready : readyDescriptor applied (descriptorIds acc) dmin = true := by
        rw [readyDescriptor, List.all_eq_true]
        intro dep hdep
        cases happ : hasIdent applied dep with
        | true => simp [happ]
        | false =>
          have hacc : dep ∈ descriptorIds acc := by
            rcases hclosed dmin hdmin dep hdep with h | h | h
            · rw [happ] at h; cases h
            · exact h
            · obtain ⟨e, he, heid⟩ := List.mem_map.mp h
              have h1 : r dep < r dmin.id := hrank dmin hdmin dep hdep happ
              have h2 : r dmin.id ≤ r e.id := hmin e he
              rw [heid] at h2
              exact absurd h1 (Nat.not_lt.mpr h2)
          simp [hasIdent_iff.mpr hacc]
      cases hx : extractReady applied (descriptorIds acc) (d0 :: rest0) with
      | none =>
        have := extractReady_none hx dmin hdmin
        rw [hready] at this
        cases this
      | some pr =>
        obtain ⟨d2, rest2⟩ := pr
        obtain ⟨hready2, hperm⟩ := extractReady_some hx
        have hlen2 : rest2.length ≤ fuel := by
          have := hperm.length_eq
          simp only [List.length_cons] at this hlen
          omega
        have hmemrest : ∀ e ∈ rest2, e ∈ d0 :: rest0 := by
          intro e he
          exact hperm.symm.subset (List.mem_cons_of_mem d2 he)
        have hidsperm : List.Perm (descriptorIds (d0 :: rest0)) (descriptorIds (d2 :: rest2)) :=
          hperm.map Descriptor.id
        have hclosed2 : ∀ d ∈ rest2, ∀ dep ∈ d.dependencies,
            hasIdent applied dep = true ∨ dep ∈ descriptorIds (d2 :: acc) ∨
              dep ∈ descriptorIds rest2 := by
          intro d hd dep hdep
          rcases hclosed d (hmemrest d hd) dep hdep with h | h | h
          · exact Or.inl h
          · exact Or.inr (Or.inl (List.mem_cons_of_mem _ h))
          · have : dep ∈ descriptorIds (d2 :: rest2) := hidsperm.subset h
            rcases List.mem_cons.mp this with hd2 | hrest2
            · exact Or.inr (Or.inl (by rw [hd2]; exact List.mem_cons_self _ _))
            · exact Or.inr (Or.inr hrest2)
        have hrank2 : ∀ d ∈ rest2, ∀ dep ∈ d.dependencies,
            hasIdent applied dep = false → r dep < r d.id := by
          intro d hd dep hdep happ
          exact hrank d (hmemrest d hd) dep hdep happ
        have hwo2 : WellOrdered applied (d2 :: acc) := by
          refine ⟨?_, hwo⟩
          intro dep hdep
          have := List.all_eq_true.mp hready2 dep hdep
          rcases Bool.or_eq_true_iff.mp this with h | h
          · exact Or.inl h
          · exact Or.inr (hasIdent_iff.mp h)
        obtain ⟨p, heq, hmem1, hmem2, hresp⟩ := ih rest2 (d2 :: acc) hlen2 hclosed2 hrank2 hwo2
        refine ⟨p, ?_, ?_, ?_, hresp⟩
        · rw [topoLoop_succ, hx]
          exact heq
        · intro d hd
          have : d ∈ d2 :: rest2 := hperm.subset hd
          rcases List.mem_cons.mp this with hd2 | hrest2
          · subst hd2; exact hmem2 d (List.mem_cons_self _ _)
          · exact hmem1 d hrest2
        · intro d hd
          exact hmem2 d (List.mem_cons_of_mem d2 hd)

/-- A successful peeling run emits a permutation of the remaining and
accumulated descriptors. -/
theorem topoLoop_ok_perm (applied : List Ident) :
    ∀ (fuel : Nat) (remaining acc p : List Descriptor),
      topoLoop applied fuel remaining acc = .ok p →
      List.Perm p (remaining ++ acc) := by
  intro fuel
  induction fuel with
  | zero =>
    intro remaining acc p h
    cases remaining with
    | nil =>
      rw [topoLoop_nil] at h
      cases h
      exact List.reverse_perm acc
    | cons d rest => rw [topoLoop_zero] at h; exact absurd h (by simp)
  | succ fuel ih =>
    intro remaining acc p h
    cases remaining with
    | nil =>
      rw [topoLoop_nil] at h
      cases h
      exact List.reverse_perm acc
    | cons d0 rest0 =>
      rw [topoLoop_succ] at h
      cases hx : extractReady applied (descriptorIds acc) (d0 :: rest0) with
      | none => rw [hx] at h; exact absurd h (by simp)
      | some pr =>
        obtain ⟨d2, rest2⟩ := pr
        rw [hx] at h
        obtain ⟨_, hperm⟩ := extractReady_some hx
        have hrec := ih rest2 (d2 :: acc) p h
        exact hrec.trans (List.perm_middle.trans (hperm.append_right acc).symm)

theorem planDescriptors_ok_of {ds : List Descriptor} {applied : List Ident}
    {p : List Descriptor}
    (h : topoLoop applied (ds.filter (fun d => !hasIdent applied d.id)).length
      (ds.filter (fun d => !hasIdent applied d.id)) [] = .ok p) :
    planDescriptors ds applied = .ok p := by
  simp [planDescriptors, h]

/-! ## Claim C3 -/

/-- Claim C3: whenever a rank function certifies the unapplied dependency
edges as acyclic and every dependency is applied or among the loaded
descriptors, the Planner succeeds, its Plan contains every not-yet-applied
descriptor, and the order is consistent with every dependency edge — each
descriptor's dependencies are already applied or occur strictly earlier in
the Plan. -/
theorem planner_topological_order (ds : List Descriptor) (applied : List Ident)
    (r : Ident → Nat)
    (hrank : ∀ d ∈ ds, ∀ dep ∈ d.dependencies, hasIdent applied dep = false → r dep < r d.id)
    (hclosed : ∀ d ∈ ds, ∀ dep ∈ d.dependencies,
      hasIdent applied dep = true ∨ dep ∈ descriptorIds ds) :
    ∃ p, planDescriptors ds applied = .ok p ∧
      (∀ d ∈ ds, hasIdent applied d.id = false → d ∈ p) ∧
      planRespects applied p := by
  have hclosed' : ∀ d ∈ ds.filter (fun d => !hasIdent applied d.id), ∀ dep ∈ d.dependencies,
      hasIdent applied dep = true ∨ dep ∈ descriptorIds ([] : List Descriptor) ∨
        dep ∈ descriptorIds (ds.filter (fun d => !hasIdent applied d.id)) := by
    intro d hd dep hdep
    have hds : d ∈ ds := (List.mem_filter.mp hd).1
    cases happ : hasIdent applied dep with
    | true => exact Or.inl rfl
    | false =>
      rcases hclosed d hds dep hdep with h | h
      · rw [happ] at h; cases h
      · obtain ⟨e, he, heid⟩ := List.mem_map.mp h
        refine Or.inr (Or.inr ?_)
        have hecand : e ∈ ds.filter (fun d => !hasIdent applied d.id) :=
          List.mem_filter.mpr ⟨he, by rw [heid, happ]; rfl⟩
        exact List.mem_map.mpr ⟨e, hecand, heid⟩
  have hrank' : ∀ d ∈ ds.filter (fun d => !hasIdent applied d.id), ∀ dep ∈ d.dependencies,
      hasIdent applied dep = false → r dep < r d.id := by
    intro d hd dep hdep happ
    exact hrank d (List.mem_filter.mp hd).1 dep hdep happ
  obtain ⟨p, heq, hmem, _, hresp⟩ := topoLoop_ok_correct applied r
    (ds.filter (fun d => !hasIdent applied d.id)).length
    (ds.filter (fun d => !hasIdent applied d.id)) [] (Nat.le_refl _) hclosed' hrank' trivial
  refine ⟨p, planDescriptors_ok_of heq, ?_, hresp⟩
  intro d hd hfalse
  exact hmem d (List.mem_filter.mpr ⟨hd, by rw [hfalse]; rfl⟩)

/-- Rank function witnessing the acyclicity of the two sample descriptors. -/
def sampleRank : Ident → Nat := fun i =>
  if i = ("user_management", "0017_alter_organization_maintenance_author") then 0 else 1

/-- Witness for C3: the planner over {0017, 0018} with nothing applied —
descriptor 0017 precedes 0018 in the resulting Plan, since the Plan respects
the declared dependency edge. -/
theorem planner_topological_order_witness :
    ∃ p, planDescriptors [migration_0017, migration_0018] [] = .ok p ∧
      (∀ d ∈ [migration_0017, migration_0018], hasIdent [] d.id = false → d ∈ p) ∧
      planRespects [] p :=
  planner_topological_order [migration_0017, migration_0018] [] sampleRank
    (by decide) (by decide)

/-! ## Cycle detection (Claim C8) -/

instance (ds : List Descriptor) (a b : Ident) : Decidable (depEdge ds a b) :=
  inferInstanceAs (Decidable (∃ d ∈ ds, d.id = a ∧ b ∈ d.dependencies))

theorem chain_next_mem {R : Ident → Ident → Prop} :
    ∀ (a : Ident) (l : List Ident), List.Chain R a l →
      ∀ x ∈ a :: l, (∃ y ∈ a :: l, R x y) ∨ x = (a :: l).getLast (List.cons_ne_nil a l) := by
  intro a l
  induction l generalizing a with
  | nil =>
    intro _ x hx
    right
    simp only [List.mem_singleton] at hx
    subst hx
    rfl
  | cons b l' ih =>
    intro hchain x hx
    obtain ⟨hR, hchain'⟩ := List.chain_cons.mp hchain
    rcases List.mem_cons.mp hx with hxa | hx'
    · exact Or.inl ⟨b, List.mem_cons_of_mem a (List.mem_cons_self b l'), hxa ▸ hR⟩
    · rcases ih b hchain' x hx' with ⟨y, hy, hR'⟩ | hlast
      · exact Or.inl ⟨y, List.mem_cons_of_mem a hy, hR'⟩
      · right
        rw [List.getLast_cons (List.cons_ne_nil b l')]
        exact hlast

theorem isCycle_succ {ds : List Descriptor} {c : List Ident} (h : isCycle ds c) :
    ∀ x ∈ c, ∃ y ∈ c, depEdge ds x y := by
  cases c with
  | nil => cases h
  | cons a l =>
    obtain ⟨hchain, hback⟩ := h
    intro x hx
    rcases chain_next_mem a l hchain x hx with ⟨y, hy, hR⟩ | hlast
    · exact ⟨y, hy, hR⟩
    · exact ⟨a, List.mem_cons_self a l, by rw [hlast]; exact hback⟩

theorem isCycle_ne_nil {ds : List Descriptor} {c : List Ident} (h : isCycle ds c) : c ≠ [] := by
  cases c with
  | nil => cases h
  | cons a l => exact List.cons_ne_nil a l

theorem isCycle_mem_ids {ds : List Descriptor} {c : List Ident} (h : isCycle ds c) :
    ∀ x ∈ c, x ∈ descriptorIds ds := by
  intro x hx
  obtain ⟨_, _, d, hd, hid, _⟩ := isCycle_succ h x hx
  exact List.mem_map.mpr ⟨d, hd, hid⟩

/-- With a set of successors inside `c` for every element of `c`, the peeling
loop can never emit an element of `c`: it ends in the error branch and `c` is
contained in the reported stuck remainder. -/
theorem topoLoop_stuck (ds : List Descriptor) (c : List Ident)
    (hnodup : (descriptorIds ds).Nodup)
    (hsucc : ∀ x ∈ c, ∃ y ∈ c, depEdge ds x y)
    (hc : c ≠ []) :
    ∀ (fuel : Nat) (remaining acc : List Descriptor),
      (∀ d ∈ remaining, d ∈ ds) →
      (∀ x ∈ c, x ∈ descriptorIds remaining) →
      (∀ x ∈ c, x ∉ descriptorIds acc) →
      ∃ stuck, topoLoop [] fuel remaining acc = .error stuck ∧ ∀ x ∈ c, x ∈ stuck := by
  have hcx : ∃ x, x ∈ c := by
    cases c with
    | nil => exact absurd rfl hc
    | cons a l => exact ⟨a, List.mem_cons_self a l⟩
  intro fuel
  induction fuel with
  | zero =>
    intro remaining acc _ hinrem _
    cases remaining with
    | nil =>
      obtain ⟨x, hx⟩ := hcx
      have := hinrem x hx
      simp [descriptorIds] at this
    | cons d rest => exact ⟨_, topoLoop_zero, hinrem⟩
  | succ fuel ih =>
    intro remaining acc hsub hinrem hnotacc
    cases remaining with
    | nil =>
      obtain ⟨x, hx⟩ := hcx
      have := hinrem x hx
      simp [descriptorIds] at this
    | cons d0 rest0 =>
      cases hx : extractReady [] (descriptorIds acc) (d0 :: rest0) with
      | none =>
        refine ⟨_, ?_, hinrem⟩
        rw [topoLoop_succ, hx]
      | some pr =>
        obtain ⟨d2, rest2⟩ := pr
        obtain ⟨hready2, hperm⟩ := extractReady_some hx
        have hd2ds : d2 ∈ ds := hsub d2 (hperm.symm.subset (List.mem_cons_self d2 rest2))
        have hd2notc : d2.id ∉ c := by
          intro hmem
          obtain ⟨y, hy, d', hd', hid', hydep⟩ := hsucc d2.id hmem
          have hdd : d' = d2 := List.inj_on_of_nodup_map hnodup hd' hd2ds hid'
          subst hdd
          have hready := List.all_eq_true.mp hready2 y hydep
          have hfalse : hasIdent ([] : List Ident) y = false := rfl
          rw [hfalse, Bool.false_or] at hready
          exact hnotacc y hy (hasIdent_iff.mp hready)
        have hidsperm : List.Perm (descriptorIds (d0 :: rest0)) (descriptorIds (d2 :: rest2)) :=
          hperm.map Descriptor.id
        obtain ⟨stuck, heq, hmem⟩ := ih rest2 (d2 :: acc)
          (fun e he => hsub e (hperm.symm.subset (List.mem_cons_of_mem d2 he)))
          (by
            intro x hxc
            have := hidsperm.subset (hinrem x hxc)
            rcases List.mem_cons.mp this with hxd2 | hxrest
            · exact absurd (hxd2 ▸ hxc) hd2notc
            · exact hxrest)
          (by
            intro x hxc hxacc
            rcases List.mem_cons.mp hxacc with hxd2 | hxa
            · exact hd2notc (hxd2 ▸ hxc)
            · exact hnotacc x hxc hxa)
        refine ⟨stuck, ?_, hmem⟩
        rw [topoLoop_succ, hx]
        exact heq

/-- Claim C8: a descriptor set containing a dependency cycle (with all
dependencies resolvable) makes the Dependency Graph Builder fail with
`CycleError` naming a remainder containing the cycle, and a run aborts with
that error leaving the state untouched — the Applier is never invoked. -/
theorem cycle_detected (ds : List Descriptor) (c : List Ident)
    (hnodup : (descriptorIds ds).Nodup)
    (hcyc : isCycle ds c)
    (hnomissing : firstMissing (descriptorIds ds) ds = none) :
    ∃ stuck, buildGraph ds = .error (.cycleError stuck) ∧ (∀ x ∈ c, x ∈ stuck) ∧
      ∀ (st : EngineState) (t : Nat), checkDrift ds st.store = none →
        run ds st t = (st, some (.cycleError stuck)) := by
  obtain ⟨stuck, heq, hmem⟩ := topoLoop_stuck ds c hnodup (isCycle_succ hcyc)
    (isCycle_ne_nil hcyc) ds.length ds [] (fun d hd => hd) (isCycle_mem_ids hcyc)
    (by intro x _ hx; simp [descriptorIds] at hx)
  have hbg : buildGraph ds = .error (.cycleError stuck) := by
    simp [buildGraph, hnomissing, heq]
  refine ⟨stuck, hbg, hmem, ?_⟩
  intro st t hdrift
  simp [run, hdrift, hbg]

/-- First half of the two-descriptor cycle used to witness C8. -/
def cycleWitnessA : Descriptor := ⟨"app", "A", [("app", "B")], []⟩

/-- Second half of the two-descriptor cycle used to witness C8. -/
def cycleWitnessB : Descriptor := ⟨"app", "B", [("app", "A")], []⟩

/-- Witness for C8: the cycle A→B→A is reported as a CycleError and the run
halts with the state untouched. -/
theorem cycle_detected_witness :
    ∃ stuck, buildGraph [cycleWitnessA, cycleWitnessB] = .error (.cycleError stuck) ∧
      (∀ x ∈ [(("app", "A") : Ident), ("app", "B")], x ∈ stuck) ∧
      ∀ (st : EngineState) (t : Nat),
        checkDrift [cycleWitnessA, cycleWitnessB] st.store = none →
        run [cycleWitnessA, cycleWitnessB] st t = (st, some (.cycleError stuck)) :=
  cycle_detected [cycleWitnessA, cycleWitnessB] [("app", "A"), ("app", "B")]
    (by decide) ⟨List.Chain.cons (by decide) List.Chain.nil, by decide⟩ (by decide)

/-! ## Claim C5 -/

theorem firstMissing_none {ids : List Ident} :
    ∀ {l : List Descriptor}, firstMissing ids l = none →
      ∀ d ∈ l, ∀ dep ∈ d.dependencies, hasIdent ids dep = true := by
  intro l
  induction l with
  | nil => intro _ d hd; cases hd
  | cons d0 rest ih =>
    intro h d hd dep hdep
    cases hf : d0.dependencies.find? (fun dep => !hasIdent ids dep) with
    | some dep0 => rw [firstMissing, hf] at h; exact absurd h (by simp)
    | none =>
      rw [firstMissing, hf] at h
      rcases List.mem_cons.mp hd with hd0 | hdrest
      · subst hd0
        have := List.find?_eq_none.mp hf dep hdep
        simpa using this
      · exact ih h d hdrest dep hdep

theorem firstMissing_some {ids : List Ident} :
    ∀ {l : List Descriptor} {dep : Ident}, firstMissing ids l = some dep →
      (∃ d ∈ l, dep ∈ d.dependencies) ∧ hasIdent ids dep = false := by
  intro l
  induction l with
  | nil => intro dep h; simp [firstMissing] at h
  | cons d0 rest ih =>
    intro dep h
    cases hf : d0.dependencies.find? (fun dep => !hasIdent ids dep) with
    | some dep0 =>
      rw [firstMissing, hf] at h
      cases h
      refine ⟨⟨d0, List.mem_cons_self d0 rest, List.mem_of_find?_eq_some hf⟩, ?_⟩
      have := List.find?_some hf
      simpa using this
    | none =>
      rw [firstMissing, hf] at h
      obtain ⟨⟨d, hd, hdep⟩, hfalse⟩ := ih h
      exact ⟨⟨d, List.mem_cons_of_mem d0 hd, hdep⟩, hfalse⟩

/-- Claim C5: when some declared dependency is absent from the loaded
descriptor set, the Dependency Graph Builder fails with
`MissingDependencyError` naming an absent identity, and a run aborts with
that error before any schema mutation. -/
theorem missing_dependency_detected (ds : List Descriptor)
    (h : ∃ d ∈ ds, ∃ dep ∈ d.dependencies, dep ∉ descriptorIds ds) :
    ∃ dep, (∃ d ∈ ds, dep ∈ d.dependencies) ∧ dep ∉ descriptorIds ds ∧
      buildGraph ds = .error (.missingDependencyError dep) ∧
      ∀ (st : EngineState) (t : Nat), checkDrift ds st.store = none →
        run ds st t = (st, some (.missingDependencyError dep)) := by
  cases hfm : firstMissing (descriptorIds ds) ds with
  | none =>
    exfalso
    obtain ⟨d, hd, dep, hdep, hnot⟩ := h
    exact hnot (hasIdent_iff.mp (firstMissing_none hfm d hd dep hdep))
  | some dep =>
    obtain ⟨hmemdep, hfalse⟩ := firstMissing_some hfm
    refine ⟨dep, hmemdep, hasIdent_false_iff.mp hfalse, ?_, ?_⟩
    · simp [buildGraph, hfm]
    · intro st t hdrift
      simp [run, hdrift, buildGraph, hfm]

/-- Witness for C5: the set containing only the sample descriptor fails the
dependency check — its declared dependency 0017 is not loaded — before any
schema mutation. -/
theorem missing_dependency_detected_witness :
    ∃ dep, (∃ d ∈ [migration_0018], dep ∈ d.dependencies) ∧
      dep ∉ descriptorIds [migration_0018] ∧
      buildGraph [migration_0018] = .error (.missingDependencyError dep) ∧
      ∀ (st : EngineState) (t : Nat), checkDrift [migration_0018] st.store = none →
        run [migration_0018] st t = (st, some (.missingDependencyError dep)) :=
  missing_dependency_detected [migration_0018] (by decide)

/-! ## Applier lemmas -/

theorem applyPlan_nil {st : EngineState} {t : Nat} : applyPlan st t [] = (st, none) := rfl

theorem applyPlan_cons {st : EngineState} {t : Nat} {d : Descriptor} {rest : List Descriptor} :
    applyPlan st t (d :: rest) =
      match applyDescriptor st d t with
      | .error e => (st, some e)
      | .ok st2 => applyPlan st2 t rest := rfl

theorem applyPlan_append {t : Nat} :
    ∀ {pre rest : List Descriptor} {st st' : EngineState},
      applyPlan st t pre = (st', none) →
      applyPlan st t (pre ++ rest) = applyPlan st' t rest := by
  intro pre
  induction pre with
  | nil =>
    intro rest st st' h
    rw [applyPlan_nil] at h
    obtain ⟨h1, -⟩ := Prod.mk.injEq .. ▸ h
    rw [List.nil_append, h1]
  | cons d pre' ih =>
    intro rest st st' h
    rw [applyPlan_cons] at h
    cases hd : applyDescriptor st d t with
    | error e => rw [hd] at h; exact absurd h (by simp)
    | ok st2 =>
      rw [hd] at h
      rw [List.cons_append, applyPlan_cons, hd]
      exact ih h

theorem applyDescriptor_ok_of {st : EngineState} {d : Descriptor} {t : Nat} {s2 : Schema}
    (hops : applyOps st.schema d.operations = .ok s2)
    (hlook : st.store.lookup d.id = none) :
    applyDescriptor st d t =
      .ok ⟨s2, ⟨st.store.records ++ [⟨d.ns, d.name, d.checksum, t⟩]⟩⟩ := by
  simp [applyDescriptor, hops, StateStore.record, hlook]
  exact ⟨rfl, rfl⟩

theorem applyDescriptor_fail {st : EngineState} {d : Descriptor} {t : Nat} {e : OpError}
    (hops : applyOps st.schema d.operations = .error e) :
    applyDescriptor st d t = .error (.operationError d.id e) := by
  simp [applyDescriptor, hops]

theorem applyPlan_records {t : Nat} :
    ∀ {p : List Descriptor} {st st' : EngineState},
      (∀ d ∈ p, st.store.lookup d.id = none) → (descriptorIds p).Nodup →
      applyPlan st t p = (st', none) →
      st'.store.records = st.store.records ++
        p.map (fun d => (⟨d.ns, d.name, d.checksum, t⟩ : ApplicationRecord)) := by
  intro p
  induction p with
  | nil =>
    intro st st' _ _ h
    rw [applyPlan_nil] at h
    obtain ⟨h1, -⟩ := Prod.mk.injEq .. ▸ h
    rw [← h1]
    simp
  | cons d rest ih =>
    intro st st' hfresh hnodup h
    rw [applyPlan_cons] at h
    cases hops : applyOps st.schema d.operations with
    | error e =>
      rw [applyDescriptor_fail hops] at h
      exact absurd h (by simp)
    | ok s2 =>
      rw [applyDescriptor_ok_of hops (hfresh d (List.mem_cons_self d rest))] at h
      have hfresh2 : ∀ e ∈ rest,
          (⟨s2, ⟨st.store.records ++ [⟨d.ns, d.name, d.checksum, t⟩]⟩⟩ :
            EngineState).store.lookup e.id = none := by
        intro e he
        have hne : d.id ≠ e.id := by
          intro heq
          have hmem : d.id ∈ descriptorIds rest := List.mem_map.mpr ⟨e, he, heq.symm⟩
          exact (List.nodup_cons.mp hnodup).1 hmem
        rw [StateStore.lookup, find?_append_none (hfresh e (List.mem_cons_of_mem d he))]
        have : (⟨d.ns, d.name, d.checksum, t⟩ : ApplicationRecord).id = d.id := rfl
        simp [List.find?, this, hne]
      have hnodup2 : (descriptorIds rest).Nodup := (List.nodup_cons.mp hnodup).2
      have hrec := ih hfresh2 hnodup2 h
      rw [hrec]
      simp

/-! ## Claim C4 -/

/-- Claim C4: when the descriptor after `pre` fails one of its operations,
the Applier halts with an error naming that descriptor, the resulting state
is exactly the state after the prefix (the failing descriptor is rolled back,
later descriptors are never attempted), and the ledger holds exactly one
ApplicationRecord per prefix descriptor beyond the initial records. -/
theorem applier_halt_isolation (pre : List Descriptor) (dFail : Descriptor)
    (post : List Descriptor) (st st' : EngineState) (t : Nat) (e : OpError)
    (hfresh : ∀ d ∈ pre, st.store.lookup d.id = none)
    (hnodup : (descriptorIds pre).Nodup)
    (hpre : applyPlan st t pre = (st', none))
    (hfail : applyOps st'.schema dFail.operations = .error e) :
    applyPlan st t (pre ++ dFail :: post) = (st', some (.operationError dFail.id e)) ∧
    st'.store.records = st.store.records ++
      pre.map (fun d => (⟨d.ns, d.name, d.checksum, t⟩ : ApplicationRecord)) := by
  constructor
  · rw [applyPlan_append hpre, applyPlan_cons, applyDescriptor_fail hfail]
  · exact applyPlan_records hfresh hnodup hpre

/-- Schema used to witness C4. -/
def applierWitnessSchema : Schema := [("organization", ⟨[], []⟩), ("user", ⟨[], []⟩)]

/-- First witness descriptor: succeeds. -/
def applierD1 : Descriptor := ⟨"app", "m1", [], [.addField "organization" "f1" ⟨false, true, none⟩]⟩

/-- Second witness descriptor: succeeds. -/
def applierD2 : Descriptor := ⟨"app", "m2", [], [.addField "user" "f2" ⟨false, true, none⟩]⟩

/-- Third witness descriptor: fails — the entity `ghost` does not exist. -/
def applierD3 : Descriptor := ⟨"app", "m3", [], [.addField "ghost" "f3" ⟨false, true, none⟩]⟩

/-- Fourth witness descriptor: would succeed but is never attempted. -/
def applierD4 : Descriptor := ⟨"app", "m4", [], []⟩

/-- Fifth witness descriptor: would succeed but is never attempted. -/
def applierD5 : Descriptor := ⟨"app", "m5", [], []⟩

/-- Initial state for the C4 witness: empty ledger. -/
def applierWitnessState : EngineState := ⟨applierWitnessSchema, ⟨[]⟩⟩

/-- State after the two successful prefix descriptors of the C4 witness. -/
def applierWitnessMid : EngineState := (applyPlan applierWitnessState 7 [applierD1, applierD2]).1

/-- Witness for C4: of five descriptors the third fails, the run halts naming
it, and exactly two ApplicationRecords exist afterwards. -/
theorem applier_halt_isolation_witness :
    applyPlan applierWitnessState 7
        ([applierD1, applierD2] ++ applierD3 :: [applierD4, applierD5]) =
      (applierWitnessMid, some (.operationError applierD3.id (.missingEntity "ghost"))) ∧
    applierWitnessMid.store.records = applierWitnessState.store.records ++
      [applierD1, applierD2].map (fun d => (⟨d.ns, d.name, d.checksum, 7⟩ : ApplicationRecord)) :=
  applier_halt_isolation [applierD1, applierD2] applierD3 [applierD4, applierD5]
    applierWitnessState applierWitnessMid 7 (.missingEntity "ghost")
    (by decide) (by decide) (by rfl) (by rfl)

/-! ## Claim C7 -/

/-- Claim C7: recording an already-applied identity with the stored checksum
is a no-op that succeeds; recording it with a different checksum fails with
`DriftError`; and a run over a descriptor whose stored checksum differs from
its current content fails with `DriftError` before any schema access, leaving
the state untouched. -/
theorem stateStore_checksum_freeze :
    (∀ (st : StateStore) (i : Ident) (c : String) (t : Nat) (r : ApplicationRecord),
      st.lookup i = some r → r.checksum = c → st.record i c t = .ok st) ∧
    (∀ (st : StateStore) (i : Ident) (c : String) (t : Nat) (r : ApplicationRecord),
      st.lookup i = some r → r.checksum ≠ c → st.record i c t = .error (.driftError i)) ∧
    (∀ (ds : List Descriptor) (st : EngineState) (t : Nat) (d : Descriptor)
      (r : ApplicationRecord), d ∈ ds → st.store.lookup d.id = some r →
      r.checksum ≠ d.checksum →
      ∃ i2, run ds st t = (st, some (.driftError i2))) := by
  refine ⟨?_, ?_, ?_⟩
  · intro st i c t r h1 h2
    simp [StateStore.record, h1, h2]
  · intro st i c t r h1 h2
    simp [StateStore.record, h1, h2]
  · intro ds st t d r hd hlook hne
    cases hcd : checkDrift ds st.store with
    | some i2 => exact ⟨i2, by simp [run, hcd]⟩
    | none =>
      exfalso
      have hfind := Option.map_eq_none'.mp hcd
      have := List.find?_eq_none.mp hfind d hd
      rw [hlook] at this
      simp at this
      exact hne this

/-- Ledger record used to witness C7. -/
def freezeWitnessRecord : ApplicationRecord := ⟨"app", "m", "sum1", 0⟩

/-- Ledger used to witness C7. -/
def freezeWitnessStore : StateStore := ⟨[freezeWitnessRecord]⟩

/-- Descriptor whose current checksum no longer matches the stored one. -/
def freezeWitnessDescriptor : Descriptor := ⟨"app", "m", [], []⟩

/-- Witness for C7: same checksum re-records as a no-op, a differing checksum
drifts, and a run over the drifted descriptor fails before any schema
access. -/
theorem stateStore_checksum_freeze_witness :
    freezeWitnessStore.record ("app", "m") "sum1" 5 = .ok freezeWitnessStore ∧
    freezeWitnessStore.record ("app", "m") "sum2" 5 = .error (.driftError ("app", "m")) ∧
    ∃ i2, run [freezeWitnessDescriptor] ⟨[], freezeWitnessStore⟩ 0 =
      (⟨[], freezeWitnessStore⟩, some (.driftError i2)) :=
  ⟨stateStore_checksum_freeze.1 freezeWitnessStore ("app", "m") "sum1" 5
      freezeWitnessRecord (by rfl) (by rfl),
    stateStore_checksum_freeze.2.1 freezeWitnessStore ("app", "m") "sum2" 5
      freezeWitnessRecord (by rfl) (by decide),
    stateStore_checksum_freeze.2.2 [freezeWitnessDescriptor] ⟨[], freezeWitnessStore⟩ 0
      freezeWitnessDescriptor freezeWitnessRecord (by simp) (by rfl) (by decide)⟩

/-! ## Claim C6 -/

theorem find?_isSome_eq_any {α : Type} (p : α → Bool) :
    ∀ l : List α, (l.find? p).isSome = l.any p := by
  intro l
  induction l with
  | nil => rfl
  | cons x xs ih =>
    by_cases hp : p x = true
    · rw [List.find?_cons_of_pos _ hp, List.any_cons, hp]
      rfl
    · have hp' : p x = false := Bool.eq_false_iff.mpr hp
      rw [List.find?_cons_of_neg _ hp, List.any_cons, hp', ih, Bool.false_or]

theorem hasIdent_map_id (i : Ident) :
    ∀ l : List ApplicationRecord,
      hasIdent (l.map ApplicationRecord.id) i =
        (l.find? (fun r => decide (r.id = i))).isSome := by
  intro l
  induction l with
  | nil => rfl
  | cons r rest ih =>
    by_cases hb : r.id = i
    · have h1 : (r :: rest).find? (fun r => decide (r.id = i)) = some r :=
        List.find?_cons_of_pos _ (by simp [hb])
      rw [h1]
      simp [hasIdent, hb]
    · have h1 : (r :: rest).find? (fun r => decide (r.id = i)) =
          rest.find? (fun r => decide (r.id = i)) :=
        List.find?_cons_of_neg _ (by simp [hb])
      rw [h1, ← ih]
      simp [hasIdent, hb]

theorem hasIdent_appliedSet {st : StateStore} {i : Ident} :
    hasIdent st.appliedSet i = st.hasApplied i :=
  hasIdent_map_id i st.records

theorem hasApplied_false_lookup {st : StateStore} {i : Ident}
    (h : st.hasApplied i = false) : st.lookup i = none := by
  cases hl : st.lookup i with
  | none => rfl
  | some r =>
    rw [StateStore.hasApplied, hl] at h
    exact absurd h (by simp)

theorem find?_map_record (t : Nat) :
    ∀ {p : List Descriptor} {d : Descriptor},
      (descriptorIds p).Nodup → d ∈ p →
      (p.map (fun x => (⟨x.ns, x.name, x.checksum, t⟩ : ApplicationRecord))).find?
        (fun r => decide (r.id = d.id)) = some ⟨d.ns, d.name, d.checksum, t⟩ := by
  intro p
  induction p with
  | nil => intro d _ hd; cases hd
  | cons e rest ih =>
    intro d hnodup hd
    rcases List.mem_cons.mp hd with hde | hdr
    · subst hde
      rw [List.map_cons]
      exact List.find?_cons_of_pos _ (by simp [ApplicationRecord.id, Descriptor.id])
    · have hne : Descriptor.id e ≠ d.id := by
        intro heq
        exact (List.nodup_cons.mp hnodup).1 (heq ▸ List.mem_map.mpr ⟨d, hdr, rfl⟩)
      rw [List.map_cons]
      exact (List.find?_cons_of_neg _
          (by simp only [decide_eq_true_eq]; exact hne)).trans
        (ih (List.nodup_cons.mp hnodup).2 hdr)

theorem planDescriptors_ok_inv {ds : List Descriptor} {applied : List Ident}
    {p : List Descriptor} (h : planDescriptors ds applied = .ok p) :
    topoLoop applied (ds.filter (fun d => !hasIdent applied d.id)).length
      (ds.filter (fun d => !hasIdent applied d.id)) [] = .ok p := by
  simp only [planDescriptors] at h
  cases htl : topoLoop applied (ds.filter (fun d => !hasIdent applied d.id)).length
      (ds.filter (fun d => !hasIdent applied d.id)) [] with
  | error stuck => rw [htl] at h; exact absurd h (by simp)
  | ok p2 =>
    rw [htl] at h
    simp only [Except.ok.injEq] at h
    rw [h]

theorem planDescriptors_not_applied {ds : List Descriptor} {applied : List Ident}
    {p : List Descriptor} (h : planDescriptors ds applied = .ok p) :
    ∀ d ∈ p, hasIdent applied d.id = false := by
  intro d hd
  have hperm := topoLoop_ok_perm applied _ _ _ _ (planDescriptors_ok_inv h)
  have hdc : d ∈ ds.filter (fun d => !hasIdent applied d.id) := by
    have := hperm.subset hd
    simpa using this
  have := (List.mem_filter.mp hdc).2
  simpa using this

/-- Claim C6: after a successful run, a second run over the same descriptor
set plans zero descriptors and succeeds with the state unchanged; moreover a
Plan never contains an already-applied descriptor. -/
theorem run_idempotent (ds : List Descriptor) (st st' : EngineState) (t t2 : Nat)
    (hnodup : (descriptorIds ds).Nodup)
    (h : run ds st t = (st', none)) :
    planDescriptors ds st'.store.appliedSet = .ok [] ∧
    run ds st' t2 = (st', none) ∧
    (∀ (ds2 : List Descriptor) (applied : List Ident) (p : List Descriptor),
      planDescriptors ds2 applied = .ok p → ∀ d ∈ p, hasIdent applied d.id = false) := by
  cases hcd : checkDrift ds st.store with
  | some i => simp [run, hcd] at h
  | none =>
  cases hbg : buildGraph ds with
  | error e => simp [run, hcd, hbg] at h
  | ok bg =>
  cases hpl : planDescriptors ds st.store.appliedSet with
  | error e => simp [run, hcd, hbg, hpl] at h
  | ok p =>
  have happ : applyPlan st t p = (st', none) := by
    have hrun : run ds st t = applyPlan st t p := by
      simp [run, hcd, hbg, hpl]
    rw [← hrun, h]
  have hperm := topoLoop_ok_perm _ _ _ _ _ (planDescriptors_ok_inv hpl)
  have hpc : ∀ d ∈ p, d ∈ ds.filter (fun d => !hasIdent st.store.appliedSet d.id) := by
    intro d hd
    have := hperm.subset hd
    simpa using this
  have hcp : ∀ d ∈ ds.filter (fun d => !hasIdent st.store.appliedSet d.id), d ∈ p := by
    intro d hd
    exact hperm.symm.subset (by simpa using hd)
  have hfreshp : ∀ d ∈ p, st.store.lookup d.id = none := by
    intro d hd
    have hfalse := planDescriptors_not_applied hpl d hd
    rw [hasIdent_appliedSet] at hfalse
    exact hasApplied_false_lookup hfalse
  have hnodupP : (descriptorIds p).Nodup := by
    have hsub : (descriptorIds (ds.filter (fun d => !hasIdent st.store.appliedSet d.id))).Nodup :=
      ((List.filter_sublist ds).map Descriptor.id).nodup hnodup
    have hidsperm : List.Perm (descriptorIds p)
        (descriptorIds (ds.filter (fun d => !hasIdent st.store.appliedSet d.id))) := by
      have := hperm.map Descriptor.id
      simpa [descriptorIds] using this
    exact hidsperm.nodup_iff.mpr hsub
  have hrecords := applyPlan_records hfreshp hnodupP happ
  have hlookup_applied : ∀ (i : Ident) (r : ApplicationRecord),
      st.store.lookup i = some r → st'.store.lookup i = some r := by
    intro i r hr
    rw [StateStore.lookup, hrecords]
    exact find?_append_some hr
  have hlookup_new : ∀ d ∈ p,
      st'.store.lookup d.id = some ⟨d.ns, d.name, d.checksum, t⟩ := by
    intro d hd
    rw [StateStore.lookup, hrecords, find?_append_none (hfreshp d hd)]
    exact find?_map_record t hnodupP hd
  have hAllApplied : ∀ d ∈ ds, st'.store.hasApplied d.id = true := by
    intro d hd
    cases hb : hasIdent st.store.appliedSet d.id with
    | true =>
      rw [hasIdent_appliedSet] at hb
      obtain ⟨r, hr⟩ := Option.isSome_iff_exists.mp hb
      rw [StateStore.hasApplied, hlookup_applied d.id r hr]
      rfl
    | false =>
      have hc : d ∈ ds.filter (fun d => !hasIdent st.store.appliedSet d.id) :=
        List.mem_filter.mpr ⟨hd, by rw [hb]; rfl⟩
      rw [StateStore.hasApplied, hlookup_new d (hcp d hc)]
      rfl
  have hfilter2 : ds.filter (fun d => !hasIdent st'.store.appliedSet d.id) = [] := by
    rw [List.filter_eq_nil_iff]
    intro d hd
    have := hAllApplied d hd
    rw [← hasIdent_appliedSet] at this
    simp [this]
  have hplan2 : planDescriptors ds st'.store.appliedSet = .ok [] := by
    simp [planDescriptors, hfilter2, topoLoop_nil]
  have hdrift2 : checkDrift ds st'.store = none := by
    apply Option.map_eq_none'.mpr
    apply List.find?_eq_none.mpr
    intro d hd
    cases hb : hasIdent st.store.appliedSet d.id with
    | true =>
      rw [hasIdent_appliedSet] at hb
      obtain ⟨r, hr⟩ := Option.isSome_iff_exists.mp hb
      have hold := List.find?_eq_none.mp (Option.map_eq_none'.mp hcd) d hd
      rw [hr] at hold
      simp only [decide_eq_true_eq] at hold
      have hck : r.checksum = d.checksum := by
        by_contra hne
        exact hold (by simpa using hne)
      rw [hlookup_applied d.id r hr]
      simp [hck]
    | false =>
      have hc : d ∈ ds.filter (fun d => !hasIdent st.store.appliedSet d.id) :=
        List.mem_filter.mpr ⟨hd, by rw [hb]; rfl⟩
      rw [hlookup_new d (hcp d hc)]
      simp
  refine ⟨hplan2, ?_, fun ds2 applied p2 hp2 => planDescriptors_not_applied hp2⟩
  simp [run, hdrift2, hbg, hplan2, applyPlan_nil]

/-- Witness for C6: the engine run over {0017, 0018} from an empty store
succeeds, and a second run plans nothing and leaves the state unchanged. -/
theorem run_idempotent_witness :
    planDescriptors [migration_0017, migration_0018]
      (EngineState.store (run [migration_0017, migration_0018]
        ⟨roundTripSchema, ⟨[]⟩⟩ 3).1).appliedSet = .ok [] ∧
    run [migration_0017, migration_0018]
        (run [migration_0017, migration_0018] ⟨roundTripSchema, ⟨[]⟩⟩ 3).1 4 =
      ((run [migration_0017, migration_0018] ⟨roundTripSchema, ⟨[]⟩⟩ 3).1, none) ∧
    (∀ (ds2 : List Descriptor) (applied : List Ident) (p : List Descriptor),
      planDescriptors ds2 applied = .ok p → ∀ d ∈ p, hasIdent applied d.id = false) :=
  run_idempotent [migration_0017, migration_0018] ⟨roundTripSchema, ⟨[]⟩⟩
    (run [migration_0017, migration_0018] ⟨roundTripSchema, ⟨[]⟩⟩ 3).1 3 4
    (by decide) (by rfl)

end Oncall
